import Mathlib

/-!
Verification development for the sdao Firebird dialect layer.

The first part embeds `sdao/firebird/cnn.py`: the pyformat-to-qmark
placeholder translator `_convert_pyformat_to_qmark`, the batch path of
`create`, and the cursor bookkeeping of `commit`/`rollback`.

The second part embeds `sdao/firebird/sqlbuilder.py`: `insert`, `update`,
`delete` and `whereCondition`.

Statement text is modelled as `String`; the scan for `%(name)s`
placeholders (the compiled regular expression in the source) is modelled
by a character-level tokenizer with the same semantics: a placeholder
match needs the two characters `%(`, then a non-empty run of characters
up to the first `)`, then `)s`; on a failed match the scan advances one
character, on a successful match it resumes after the match.
-/

namespace Sdao

/-- A token of a statement template: either a literal character or a
named placeholder `%(name)s`. -/
inductive Tok : Type
  | ch (c : Char) : Tok
  | ph (name : String) : Tok
deriving DecidableEq

/-- Split a character list at the first `)`: returns the characters
before it and the characters after it, or `none` when there is no `)`. -/
def splitAtRparen : List Char → Option (List Char × List Char)
  | [] => none
  | c :: rest =>
    if c = ')' then some ([], rest)
    else match splitAtRparen rest with
      | some (a, b) => some (c :: a, b)
      | none => none

/-- Fuel-driven scanner for `%(name)s` placeholders; the fuel is an upper
bound on the number of characters still to be consumed plus one, so with
fuel `cs.length + 1` the zero-fuel branch is never reached. -/
def tokAux : Nat → List Char → List Tok
  | 0, _ => []
  | _ + 1, [] => []
  | _ + 1, [c] => [Tok.ch c]
  | f + 1, c :: c2 :: rest2 =>
    if c = '%' then
      if c2 = '(' then
        match splitAtRparen rest2 with
        | some (name, after) =>
          match after with
          | [] => Tok.ch '%' :: tokAux f (c2 :: rest2)
          | a1 :: after2 =>
            if a1 = 's' then
              if name = [] then Tok.ch '%' :: tokAux f (c2 :: rest2)
              else Tok.ph name.asString :: tokAux f after2
            else Tok.ch '%' :: tokAux f (c2 :: rest2)
        | none => Tok.ch '%' :: tokAux f (c2 :: rest2)
      else Tok.ch c :: tokAux f (c2 :: rest2)
    else Tok.ch c :: tokAux f (c2 :: rest2)

/-- Tokenize a statement template into literal characters and named
placeholders, in left-to-right order. -/
def tokenize (cs : List Char) : List Tok :=
  tokAux (cs.length + 1) cs

/-- Extract the placeholder name of a token, if it is one. -/
def phName : Tok → Option String
  | Tok.ch _ => none
  | Tok.ph n => some n

/-- The placeholder names of a template, in left-to-right order of
appearance (the `m.group(1)` values of `finditer` in the source). -/
def namesOf (cs : List Char) : List String :=
  (tokenize cs).filterMap phName

/-- `self._pyformat_pattern.sub("?", sql)`: replace every placeholder
match with a single `?`, keeping all other characters. -/
def subQmark (cs : List Char) : List Char :=
  ((tokenize cs).map fun t =>
    match t with
    | Tok.ch c => [c]
    | Tok.ph _ => ['?']).flatten

/-- `"%(" in sql`: whether the template contains the two-character
substring `%(`. -/
def containsPercentLparen : List Char → Bool
  | [] => false
  | [_] => false
  | c :: c2 :: rest2 =>
    if c = '%' then
      if c2 = '(' then true else containsPercentLparen (c2 :: rest2)
    else containsPercentLparen (c2 :: rest2)

/-- The loop body of `_convert_pyformat_to_qmark`: walk the tokens,
replace each placeholder with `?` and collect its value from the
parameter mapping, failing with the missing name as soon as a lookup
fails (the `raise KeyError` in the source). -/
def bindToks (params : List (String × α)) : List Tok → Except String (List Char × List α)
  | [] => Except.ok ([], [])
  | Tok.ch c :: ts =>
    match bindToks params ts with
    | Except.ok (cs, vs) => Except.ok (c :: cs, vs)
    | Except.error e => Except.error e
  | Tok.ph n :: ts =>
    match List.lookup n params with
    | none => Except.error n
    | some v =>
      match bindToks params ts with
      | Except.ok (cs, vs) => Except.ok ('?' :: cs, v :: vs)
      | Except.error e => Except.error e

/-- The four possible outcomes of `_convert_pyformat_to_qmark`:
`(sql, None)` for an empty parameter mapping, `(sql, params)` when the
template has no `%(` substring, `(new_sql, values)` after rewriting, or
the `KeyError` carrying the missing name and the offending template. -/
inductive ConvertResult (α : Type) : Type
  | noParams (sql : String) : ConvertResult α
  | passthrough (sql : String) (params : List (String × α)) : ConvertResult α
  | converted (sql : String) (values : List α) : ConvertResult α
  | missingParam (name : String) (sql : String) : ConvertResult α
deriving DecidableEq

/-- Embedding of `Cnn._convert_pyformat_to_qmark`. The parameter mapping
is an association list keyed by placeholder name. -/
def convertPyformatToQmark (sql : String) (params : List (String × α)) : ConvertResult α :=
  if params.isEmpty then ConvertResult.noParams sql
  else if containsPercentLparen sql.data = false then ConvertResult.passthrough sql params
  else
    match bindToks params (tokenize sql.data) with
    | Except.error n => ConvertResult.missingParam n sql
    | Except.ok (cs, vs) => ConvertResult.converted (String.mk cs) vs

/-- Outcome of the multi-row branch of `Cnn.create`: pass the rows
through unchanged when the template has no placeholder, or rewrite to
qmark style with one positional tuple per row, or raise the `KeyError`
of the first missing name. -/
inductive BatchResult (α : Type) : Type
  | passthrough (sql : String) (rows : List (List (String × α))) : BatchResult α
  | converted (sql : String) (rows : List (List α)) : BatchResult α
  | missingParam (name : String) : BatchResult α
deriving DecidableEq

/-- `tuple(row[name] for name in names_in_order)`: the positional tuple
of one row, failing with the first name the row does not contain. -/
def rowTuple (names : List String) (row : List (String × α)) : Except String (List α) :=
  match names with
  | [] => Except.ok []
  | n :: ns =>
    match List.lookup n row with
    | none => Except.error n
    | some v =>
      match rowTuple ns row with
      | Except.ok vs => Except.ok (v :: vs)
      | Except.error e => Except.error e

/-- The `for row in data` loop of the batch branch: build each row's
positional tuple in order, failing at the first missing name. -/
def rowTuples (names : List String) : List (List (String × α)) → Except String (List (List α))
  | [] => Except.ok []
  | r :: rs =>
    match rowTuple names r with
    | Except.error e => Except.error e
    | Except.ok t =>
      match rowTuples names rs with
      | Except.ok ts => Except.ok (t :: ts)
      | Except.error e => Except.error e

/-- Embedding of the `isinstance(data, list)` branch of `Cnn.create`:
fix the name order from the template once, then build every row's
positional tuple in that order. -/
def createBatch (sql : String) (rows : List (List (String × α))) : BatchResult α :=
  let names := namesOf sql.data
  if names = [] then BatchResult.passthrough sql rows
  else
    match rowTuples names rows with
    | Except.error n => BatchResult.missingParam n
    | Except.ok rs => BatchResult.converted (String.mk (subQmark sql.data)) rs

/-- Decimal valuation of a digit string (most significant first). -/
def decVal : List Char → Nat
  | [] => 0
  | c :: cs => (c.toNat - 48) * 10 ^ cs.length + decVal cs

/-- The parenthesized comma-joined group of named placeholders that an
IN-list condition on column `n` expands to, with aliases numbered from
`start`. -/
def inGroup (n : String) (start len : Nat) : String :=
  "(" ++ String.intercalate ","
    ((List.range len).map fun i =>
      "%(" ++ ("param_" ++ n ++ "_" ++ toString (i + start)) ++ ")s") ++ ")"

/-- `self.cnn.commit()`: the underlying driver commit, which either
returns or raises a driver error. -/
def cnnCommit (ok : Bool) : Except String Unit :=
  if ok then Except.ok () else Except.error "driver commit failed"

/-- `self.cnn.rollback()`: the underlying driver rollback. -/
def cnnRollback (ok : Bool) : Except String Unit :=
  if ok then Except.ok () else Except.error "driver rollback failed"

/-- `self._cursor.close()`: closing the open cursor, which may raise. -/
def closeCursor (ok : Bool) : Except String Unit :=
  if ok then Except.ok () else Except.error "cursor close failed"

/-- `try: ... except Exception: pass` around a single action: the
action's exception, if any, is swallowed. -/
def tryExceptPass (x : Except String Unit) : Except String Unit :=
  match x with
  | Except.ok _ => Except.ok ()
  | Except.error _ => Except.ok ()

/-- Embedding of `Cnn.commit`: run the driver commit (propagating its
error), then if a cursor is open, close it with errors suppressed and
clear the cursor slot. Returns the new cursor slot. -/
def commitModel (commitOk closeOk : Bool) (cursor : Option Unit) : Except String (Option Unit) :=
  match cnnCommit commitOk with
  | Except.error e => Except.error e
  | Except.ok _ =>
    match cursor with
    | some _ =>
      match tryExceptPass (closeCursor closeOk) with
      | Except.ok _ => Except.ok none
      | Except.error e => Except.error e
    | none => Except.ok cursor

/-- Embedding of `Cnn.rollback`: same bookkeeping as `commit` around the
driver rollback. -/
def rollbackModel (rollbackOk closeOk : Bool) (cursor : Option Unit) : Except String (Option Unit) :=
  match cnnRollback rollbackOk with
  | Except.error e => Except.error e
  | Except.ok _ =>
    match cursor with
    | some _ =>
      match tryExceptPass (closeCursor closeOk) with
      | Except.ok _ => Except.ok none
      | Except.error e => Except.error e
    | none => Except.ok cursor

/-- The value of one `WHERE` condition: a scalar, `None`, or a list. -/
inductive CondValue (α : Type) : Type
  | scalar (a : α) : CondValue α
  | null : CondValue α
  | list (xs : List α) : CondValue α
deriving DecidableEq

/-- Whether a condition value is a scalar. -/
def CondValue.isScalar : CondValue α → Bool
  | CondValue.scalar _ => true
  | _ => false

/-- The scalar carried by a condition value, with a default. -/
def CondValue.scalarOr (d : α) : CondValue α → α
  | CondValue.scalar a => a
  | _ => d

/-- One condition descriptor of `SqlBuilder.whereCondition`, in the
format produced by `GetDao.filters`. -/
structure Condition (α : Type) : Type where
  paramName : String
  logicalOperator : Option String
  comparisonOperator : String
  value : CondValue α
deriving DecidableEq

namespace SqlBuilder

/-- The `while f"{paramAlias}_{next_index}" in usedParamNames` loop:
starting from `k`, advance while the synthesized alias is already used.
The fuel `used.length + 1` of `findNextIndex` always suffices, because
each advance consumes a distinct member of `used`. -/
def findNextIndexAux (base : String) (used : List String) : Nat → Nat → Nat
  | 0, k => k
  | f + 1, k =>
    if (base ++ "_" ++ toString k) ∈ used then findNextIndexAux base used f (k + 1)
    else k

/-- The first index `k` such that `f"{base}_{k}"` is not yet used. -/
def findNextIndex (base : String) (used : List String) : Nat :=
  findNextIndexAux base used (used.length + 1) 0

/-- The loop body of `SqlBuilder.whereCondition` for one condition:
given the aliases used so far and the clause built so far, return the
updated alias list and clause. Mirrors the source's local-variable
overwrites: the list branch forces the operator to `IN` unless it is
`NOT IN`, synthesizes one alias per element starting at the first free
index, and for an empty list blanks the column, both operators and the
value (setting the value to the literal `1`); the scalar branch emits
` %(param_<name>)s`; the null branch emits no value at all. -/
def condStep (used : List String) (result : String) (c : Condition α) : List String × String :=
  let paramName := "\"" ++ c.paramName ++ "\""
  let paramAlias := "param_" ++ c.paramName
  let parts : Option String × String × String × String × List String :=
    match c.value with
    | CondValue.list xs =>
      let comparisonOperator :=
        if c.comparisonOperator = "NOT IN" then c.comparisonOperator else "IN"
      let nextIndex := findNextIndex paramAlias used
      let inParamNames := (List.range xs.length).map fun i =>
        paramAlias ++ "_" ++ toString (i + nextIndex)
      let used2 := used ++ inParamNames
      let value :=
        "(" ++ String.intercalate "," (inParamNames.map fun nm => "%(" ++ nm ++ ")s") ++ ")"
      if xs.length < 1 then (some "", "", "", "1", used2)
      else (c.logicalOperator, paramName, comparisonOperator, value, used2)
    | CondValue.scalar _ =>
      (c.logicalOperator, paramName, c.comparisonOperator, " %(" ++ paramAlias ++ ")s", used)
    | CondValue.null =>
      (c.logicalOperator, paramName, c.comparisonOperator, "", used)
  match parts with
  | (lop, pn, co, v, used2) =>
    let r1 :=
      match lop with
      | none => result
      | some op => result ++ " " ++ op
    (used2, r1 ++ " " ++ pn ++ " " ++ co ++ v)

/-- Embedding of `SqlBuilder.whereCondition`: fold the conditions over
the initial state `result = "WHERE"`, `usedParamNames = []`. -/
def whereCondition (params : List (Condition α)) : String :=
  (params.foldl (fun acc c => condStep acc.1 acc.2 c) ([], "WHERE")).2

/-- The payload of `SqlBuilder.insert`: a single row mapping or a list
of row mappings. -/
inductive InsertData (α : Type) : Type
  | dict (row : List (String × α)) : InsertData α
  | batch (rows : List (List (String × α))) : InsertData α
deriving DecidableEq

/-- The statement text built by `insert` from the key list. -/
def insertSql (table : String) (keys : List String) : String :=
  "INSERT INTO \"" ++ table ++ "\" (" ++
    String.intercalate "," (keys.map fun k => "\"" ++ k ++ "\"") ++
    ") VALUES(" ++ String.intercalate "," (keys.map fun k => "%(" ++ k ++ ")s") ++ ")"

/-- Embedding of `SqlBuilder.insert`: any dict (its keys in order) is
accepted, a list must be non-empty (keys from its first row), an empty
list raises the `ValueError` of the source. -/
def insert (table : String) (data : InsertData α) : Except String String :=
  match data with
  | InsertData.dict row => Except.ok (insertSql table (row.map Prod.fst))
  | InsertData.batch rows =>
    match rows with
    | r :: _ => Except.ok (insertSql table (r.map Prod.fst))
    | [] => Except.error "Data for insert() must be dict or non-empty list[dict]"

/-- Embedding of `SqlBuilder.update`: an empty dict raises the
`ValueError` of the source, otherwise build the `SET` pairs in key
order. -/
def update (table : String) (data : List (String × α)) : Except String String :=
  if data.length = 0 then Except.error "Data for update() must be non-empty dict"
  else
    Except.ok ("UPDATE \"" ++ table ++ "\" SET " ++
      String.intercalate "," (data.map fun kv => "\"" ++ kv.1 ++ "\" = %(" ++ kv.1 ++ ")s"))

/-- Embedding of `SqlBuilder.delete`. -/
def delete (table : String) : String :=
  "DELETE FROM \"" ++ table ++ "\""

end SqlBuilder

/-- The clause fragment that the `whereCondition` loop body appends for
one scalar non-null condition: optional connective, quoted column,
comparison operator, and the ` %(param_<name>)s` placeholder. -/
def scalarFragment (c : Condition α) : String :=
  (match c.logicalOperator with
   | none => ""
   | some op => " " ++ op) ++ " " ++ ("\"" ++ c.paramName ++ "\"") ++ " " ++
    c.comparisonOperator ++ (" %(" ++ ("param_" ++ c.paramName) ++ ")s")

/-- Concatenation of the scalar fragments of a condition list, in
order. -/
def fragsOf : List (Condition α) → String
  | [] => ""
  | c :: cs => scalarFragment c ++ fragsOf cs

/-- Hygiene of a scalar condition: its value is a scalar, its column
name contains neither `%` nor `)`, and its operators contain no `%` —
so the emitted fragment's only placeholder is its own. -/
def goodScalarCond (c : Condition Int) : Bool :=
  c.value.isScalar && !(c.paramName.data.elem '%') && !(c.paramName.data.elem ')') &&
    !(c.comparisonOperator.data.elem '%') &&
    (match c.logicalOperator with
     | none => true
     | some op => !(op.data.elem '%'))

end Sdao

namespace Sdao

/-! ### Basic helper lemmas -/

theorem strEq_of_data {a b : String} (h : a.data = b.data) : a = b :=
  String.ext h

theorem lookup_isSome_of_mem_keys {α : Type} {k : String} :
    ∀ {l : List (String × α)}, k ∈ l.map Prod.fst → (List.lookup k l).isSome = true := by
  intro l
  induction l with
  | nil => intro h; cases h
  | cons p ps ih =>
    intro h
    by_cases hk : k = p.1
    · obtain ⟨k1, v1⟩ := p
      simp [List.lookup, hk]
    · have hm : k ∈ ps.map Prod.fst := by
        rcases List.mem_cons.mp h with h1 | h2
        · exact absurd h1 hk
        · exact h2
      have hbeq : (k == p.1) = false := beq_false_of_ne hk
      obtain ⟨k1, v1⟩ := p
      simp only [List.lookup]
      rw [hbeq]
      exact ih hm

/-! ### Claim C3 -/

/-- Claim C3: translating any template with an empty value source returns
the template unchanged together with a null value sequence (the
`(sql, None)` early return of `_convert_pyformat_to_qmark`). -/
theorem sdao_C3_empty_source (α : Type) (sql : String) :
    convertPyformatToQmark sql ([] : List (String × α)) = ConvertResult.noParams sql := rfl

/-! ### Claim C4 -/

/-- Claim C4 counterexample: the template `%(x` contains no named
placeholder of the form `%(identifier)s`, yet with a non-empty value
source the translator does not pass the value source through untouched:
it returns the rewritten form with an empty positional value list,
because the pass-through test in the source checks for the substring
`%(`, not for a complete placeholder. -/
theorem sdao_C4_counterexample :
    convertPyformatToQmark "%(x" [("y", (1 : Int))] = ConvertResult.converted "%(x" [] ∧
    convertPyformatToQmark "%(x" [("y", (1 : Int))] ≠
      ConvertResult.passthrough "%(x" [("y", (1 : Int))] := by
  exact ⟨rfl, by decide⟩

/-- Claim C4 amended: for every template that does not contain the
two-character substring `%(` and every non-empty value source,
translation returns the template text unchanged and the original value
source untouched. -/
theorem sdao_C4_amended (α : Type) (sql : String) (params : List (String × α))
    (h1 : params ≠ []) (h2 : containsPercentLparen sql.data = false) :
    convertPyformatToQmark sql params = ConvertResult.passthrough sql params := by
  obtain ⟨p, ps, rfl⟩ := List.exists_cons_of_ne_nil h1
  unfold convertPyformatToQmark
  rw [if_neg (fun h => Bool.noConfusion h), if_pos h2]

/-- Claim C4 witness. -/
theorem sdao_C4_witness :
    convertPyformatToQmark "SELECT * FROM \"t\"" [("y", (1 : Int))] =
      ConvertResult.passthrough "SELECT * FROM \"t\"" [("y", (1 : Int))] :=
  sdao_C4_amended Int "SELECT * FROM \"t\"" [("y", (1 : Int))] (by decide) (by decide)

/-! ### Claim C2 -/

/-- Claim C2 counterexample: translating the template `%(a)s` with the
empty value source does not raise at all — the translator returns the
template unchanged with a null value sequence, because the empty-source
early return precedes the placeholder scan. -/
theorem sdao_C2_counterexample :
    convertPyformatToQmark "%(a)s" ([] : List (String × Int)) = ConvertResult.noParams "%(a)s" ∧
    convertPyformatToQmark "%(a)s" ([] : List (String × Int)) ≠
      ConvertResult.missingParam "a" "%(a)s" := by
  exact ⟨rfl, by decide⟩

/-- Claim C2 amended: translating `%(a)s` with a NON-EMPTY value source
missing the key `a` raises the missing-parameter error identifying the
name and the offending template, during translation; and in the batch
path every row missing the key (including an empty row) raises it. With
the empty single-row source translation instead returns the template
with a null value sequence. -/
theorem sdao_C2_amended :
    (∀ params : List (String × Int), params ≠ [] → List.lookup "a" params = none →
      convertPyformatToQmark "%(a)s" params = ConvertResult.missingParam "a" "%(a)s") ∧
    (∀ rows : List (List (String × Int)),
      (∃ r ∈ rows, List.lookup "a" r = none) →
      createBatch "%(a)s" rows = BatchResult.missingParam "a") := by
  constructor
  · intro params hne hlook
    obtain ⟨p, ps, rfl⟩ := List.exists_cons_of_ne_nil hne
    unfold convertPyformatToQmark
    rw [if_neg (fun h => Bool.noConfusion h), if_neg (by decide)]
    have htok : tokenize "%(a)s".data = [Tok.ph "a"] := rfl
    rw [htok]
    simp [bindToks, hlook]
  · intro rows hrow
    unfold createBatch
    have hnames : namesOf "%(a)s".data = ["a"] := rfl
    rw [hnames]
    rw [if_neg (by decide)]
    have hmap : rowTuples ["a"] rows = Except.error "a" := by
      induction rows with
      | nil =>
        rcases hrow with ⟨r, hr, _⟩
        cases hr
      | cons r0 rest ih =>
        cases hl : List.lookup "a" r0 with
        | none =>
          have h1 : rowTuple ["a"] r0 = Except.error "a" := by
            simp [rowTuple, hl]
          simp [rowTuples, h1]
        | some v =>
          rcases hrow with ⟨r, hr, hrl⟩
          rcases List.mem_cons.mp hr with heq | h2
          · rw [heq] at hrl
            rw [hrl] at hl
            cases hl
          · have hrest := ih ⟨r, h2, hrl⟩
            have h1 : rowTuple ["a"] r0 = Except.ok [v] := by
              simp [rowTuple, hl]
            simp [rowTuples, h1, hrest]
    rw [hmap]

/-- Claim C2 witness. -/
theorem sdao_C2_witness :
    convertPyformatToQmark "%(a)s" [("b", (1 : Int))] = ConvertResult.missingParam "a" "%(a)s" ∧
    createBatch "%(a)s" ([[]] : List (List (String × Int))) = BatchResult.missingParam "a" :=
  ⟨sdao_C2_amended.1 [("b", (1 : Int))] (by decide) (by decide),
   sdao_C2_amended.2 [[]] ⟨[], by decide, by decide⟩⟩

end Sdao

namespace Sdao

/-! ### Claim C5 -/

/-- Claim C5 counterexample: for the single condition on column `a` with
comparison operator `=` and a null value, `whereCondition` emits
`WHERE "a" =` — the comparison operator IS emitted after the quoted
column (only the placeholder is dropped), contradicting the claim that
only the quoted column name is emitted. -/
theorem sdao_C5_counterexample :
    SqlBuilder.whereCondition
        [⟨"a", none, "=", (CondValue.null : CondValue Int)⟩] = "WHERE \"a\" =" ∧
    SqlBuilder.whereCondition
        [⟨"a", none, "=", (CondValue.null : CondValue Int)⟩] ≠ "WHERE \"a\"" := by
  exact ⟨rfl, by decide⟩

/-- Claim C5 amended: for a condition whose value is null (and not a
list), the `whereCondition` loop body emits the quoted column name
FOLLOWED BY the condition's comparison operator — but no placeholder —
preceded by its logical connective when present; the used-alias list is
unchanged, so no binding is required for it. -/
theorem sdao_C5_amended (used : List String) (result : String) (c : Condition Int)
    (h : c.value = CondValue.null) :
    SqlBuilder.condStep used result c =
      (used,
        (match c.logicalOperator with
         | none => result
         | some op => result ++ " " ++ op) ++
          " \"" ++ c.paramName ++ "\" " ++ c.comparisonOperator) := by
  unfold SqlBuilder.condStep
  rw [h]
  cases c.logicalOperator with
  | none =>
    refine congrArg (Prod.mk used) ?_
    apply strEq_of_data
    simp [List.append_assoc]
  | some op =>
    refine congrArg (Prod.mk used) ?_
    apply strEq_of_data
    simp [List.append_assoc]

/-- Claim C5 witness. -/
theorem sdao_C5_witness :
    SqlBuilder.condStep [] "WHERE" (⟨"a", none, "=", (CondValue.null : CondValue Int)⟩) =
      ([], "WHERE \"a\" =") := by
  rw [sdao_C5_amended [] "WHERE" ⟨"a", none, "=", (CondValue.null : CondValue Int)⟩ rfl]
  rfl

/-! ### Claim C6 -/

/-- Claim C6: evaluation of `whereCondition` at the failing input — a
scalar condition on `a` followed by an empty-list condition on `b`
carrying the `AND` connective. The empty-list branch blanks the logical
connective together with the column and operators, so the built clause
is `WHERE "a" = %(param_a)s   1`: the neutral literal `1` is juxtaposed
to the previous condition with no `AND`/`OR` token between them. -/
theorem sdao_C6_code_eval :
    SqlBuilder.whereCondition
        [⟨"a", none, "=", CondValue.scalar (7 : Int)⟩,
         ⟨"b", some "AND", "=", CondValue.list ([] : List Int)⟩] =
      "WHERE \"a\" = %(param_a)s   1" := rfl

/-! ### Claim C8 -/

/-- Claim C8 counterexample: `insert` applied to an empty mapping does
NOT raise — the `isinstance(data, dict)` branch accepts the empty dict
and produces the degenerate statement `INSERT INTO "t" () VALUES()`. -/
theorem sdao_C8_counterexample :
    SqlBuilder.insert "t" (SqlBuilder.InsertData.dict ([] : List (String × Int))) =
      Except.ok "INSERT INTO \"t\" () VALUES()" := rfl

/-- Claim C8 amended: `update` applied to an empty mapping raises, and
`insert` applied to an empty LIST raises; but `insert` applied to an
empty mapping returns the degenerate template `INSERT INTO "<table>" ()
VALUES()` instead of raising. -/
theorem sdao_C8_amended :
    (∀ t : String, SqlBuilder.update t ([] : List (String × Int)) =
      Except.error "Data for update() must be non-empty dict") ∧
    (∀ t : String,
      SqlBuilder.insert t (SqlBuilder.InsertData.batch ([] : List (List (String × Int)))) =
        Except.error "Data for insert() must be dict or non-empty list[dict]") ∧
    (∀ t : String, SqlBuilder.insert t (SqlBuilder.InsertData.dict ([] : List (String × Int))) =
      Except.ok ("INSERT INTO \"" ++ t ++ "\" () VALUES()")) := by
  refine ⟨fun t => rfl, fun t => rfl, fun t => ?_⟩
  unfold SqlBuilder.insert SqlBuilder.insertSql
  refine congrArg Except.ok ?_
  apply strEq_of_data
  simp [List.append_assoc]
  decide

/-! ### Claim C10 -/

/-- Claim C10: after a `commit` or `rollback` that returns normally the
cursor slot is cleared to `none` — in particular an exception while
closing the previous cursor is suppressed (the `closeOk = false` cases
below still return normally) — while a failure of the underlying
driver's commit/rollback propagates unchanged to the caller. -/
theorem sdao_C10_commit_rollback_cursor :
    (∀ (closeOk : Bool) (cursor : Option Unit),
        commitModel true closeOk cursor = Except.ok none ∧
        rollbackModel true closeOk cursor = Except.ok none) ∧
    (∀ (closeOk : Bool) (cursor : Option Unit),
        commitModel false closeOk cursor = Except.error "driver commit failed" ∧
        rollbackModel false closeOk cursor = Except.error "driver rollback failed") := by
  constructor
  · intro closeOk cursor
    cases closeOk <;> cases cursor <;> exact ⟨rfl, rfl⟩
  · intro closeOk cursor
    cases closeOk <;> cases cursor <;> exact ⟨rfl, rfl⟩

end Sdao


namespace Sdao

/-! ### Tokenizer lemmas -/

theorem tokAux_nil : ∀ f : Nat, tokAux f [] = [] := by
  intro f
  cases f <;> rfl

theorem splitAtRparen_spec : ∀ (l a b : List Char), splitAtRparen l = some (a, b) →
    l = a ++ ')' :: b ∧ ')' ∉ a := by
  intro l
  induction l with
  | nil => intro a b h; cases h
  | cons c rest ih =>
    intro a b h
    unfold splitAtRparen at h
    by_cases hc : c = ')'
    · rw [if_pos hc] at h
      injection h with h1
      injection h1 with ha hb
      subst ha
      subst hb
      subst hc
      exact ⟨rfl, List.not_mem_nil _⟩
    · rw [if_neg hc] at h
      cases hs : splitAtRparen rest with
      | none => rw [hs] at h; cases h
      | some p =>
        obtain ⟨a1, b1⟩ := p
        rw [hs] at h
        injection h with h1
        injection h1 with ha hb
        subst ha
        subst hb
        obtain ⟨h1, h2⟩ := ih a1 b1 hs
        refine ⟨by rw [List.cons_append, h1], ?_⟩
        intro hm
        rcases List.mem_cons.mp hm with hm1 | hm2
        · exact hc hm1.symm
        · exact h2 hm2

theorem splitAtRparen_of : ∀ (a b : List Char), ')' ∉ a →
    splitAtRparen (a ++ ')' :: b) = some (a, b) := by
  intro a
  induction a with
  | nil =>
    intro b h
    rw [List.nil_append]
    unfold splitAtRparen
    rw [if_pos rfl]
  | cons c cs ih =>
    intro b h
    have hc : ¬c = ')' := by
      intro hh
      exact h (by rw [hh]; exact List.mem_cons_self _ _)
    rw [List.cons_append]
    unfold splitAtRparen
    rw [if_neg hc, ih b (fun hm => h (List.mem_cons_of_mem c hm))]

theorem tokAux_irrel : ∀ (f g : Nat) (cs : List Char), cs.length < f → cs.length < g →
    tokAux f cs = tokAux g cs := by
  intro f
  induction f with
  | zero => intro g cs hf _; exact absurd hf (Nat.not_lt_zero _)
  | succ f ih =>
    intro g cs hf hg
    cases g with
    | zero => exact absurd hg (Nat.not_lt_zero _)
    | succ g =>
      match cs with
      | [] => rfl
      | [c] => rfl
      | c :: c2 :: rest2 =>
        have hrf : (c2 :: rest2).length < f := by
          simp only [List.length_cons] at hf ⊢
          omega
        have hrg : (c2 :: rest2).length < g := by
          simp only [List.length_cons] at hg ⊢
          omega
        simp only [tokAux]
        by_cases hc : c = '%'
        · rw [if_pos hc, if_pos hc]
          by_cases hc2 : c2 = '('
          · rw [if_pos hc2, if_pos hc2]
            cases hs : splitAtRparen rest2 with
            | none =>
              simp only [hs]
              exact congrArg _ (ih g (c2 :: rest2) hrf hrg)
            | some p =>
              obtain ⟨name, after⟩ := p
              simp only [hs]
              cases after with
              | nil => exact congrArg _ (ih g (c2 :: rest2) hrf hrg)
              | cons a1 after2 =>
                show (if a1 = 's' then
                    if name = [] then Tok.ch '%' :: tokAux f (c2 :: rest2)
                    else Tok.ph name.asString :: tokAux f after2
                  else Tok.ch '%' :: tokAux f (c2 :: rest2)) =
                  (if a1 = 's' then
                    if name = [] then Tok.ch '%' :: tokAux g (c2 :: rest2)
                    else Tok.ph name.asString :: tokAux g after2
                  else Tok.ch '%' :: tokAux g (c2 :: rest2))
                by_cases ha1 : a1 = 's'
                · rw [if_pos ha1, if_pos ha1]
                  by_cases hname : name = []
                  · rw [if_pos hname, if_pos hname]
                    exact congrArg _ (ih g (c2 :: rest2) hrf hrg)
                  · rw [if_neg hname, if_neg hname]
                    have hsp := (splitAtRparen_spec rest2 name (a1 :: after2) hs).1
                    have hlen := congrArg List.length hsp
                    simp only [List.length_append, List.length_cons] at hlen
                    have h2f : after2.length < f := by
                      simp only [List.length_cons] at hf
                      omega
                    have h2g : after2.length < g := by
                      simp only [List.length_cons] at hg
                      omega
                    exact congrArg _ (ih g after2 h2f h2g)
                · rw [if_neg ha1, if_neg ha1]
                  exact congrArg _ (ih g (c2 :: rest2) hrf hrg)
          · rw [if_neg hc2, if_neg hc2]
            exact congrArg _ (ih g (c2 :: rest2) hrf hrg)
        · rw [if_neg hc, if_neg hc]
          exact congrArg _ (ih g (c2 :: rest2) hrf hrg)

theorem tokenize_cons_ch (c : Char) (cs : List Char) (hc : ¬c = '%') :
    tokenize (c :: cs) = Tok.ch c :: tokenize cs := by
  match cs with
  | [] => rfl
  | c2 :: rest2 =>
    unfold tokenize
    simp only [List.length_cons]
    simp only [tokAux]
    rw [if_neg hc]

theorem tokenize_ph (name rest : List Char) (h1 : ')' ∉ name) (h2 : name ≠ []) :
    tokenize ('%' :: '(' :: (name ++ ')' :: 's' :: rest)) =
      Tok.ph name.asString :: tokenize rest := by
  unfold tokenize
  simp only [List.length_cons]
  simp only [tokAux]
  cases hsp : splitAtRparen (name ++ ')' :: 's' :: rest) with
  | none =>
    rw [splitAtRparen_of name ('s' :: rest) h1] at hsp
    cases hsp
  | some p =>
    obtain ⟨a, b⟩ := p
    rw [splitAtRparen_of name ('s' :: rest) h1] at hsp
    injection hsp with hp
    injection hp with ha hb
    subst ha
    subst hb
    show (if '%' = '%' then
        if '(' = '(' then
          match ('s' :: rest : List Char) with
          | [] => Tok.ch '%' ::
              tokAux ((name ++ ')' :: 's' :: rest).length + 1 + 1) ('(' :: (name ++ ')' :: 's' :: rest))
          | a1 :: after2 =>
            if a1 = 's' then
              if name = [] then Tok.ch '%' ::
                tokAux ((name ++ ')' :: 's' :: rest).length + 1 + 1) ('(' :: (name ++ ')' :: 's' :: rest))
              else Tok.ph name.asString ::
                tokAux ((name ++ ')' :: 's' :: rest).length + 1 + 1) after2
            else Tok.ch '%' ::
              tokAux ((name ++ ')' :: 's' :: rest).length + 1 + 1) ('(' :: (name ++ ')' :: 's' :: rest))
        else Tok.ch '%' ::
          tokAux ((name ++ ')' :: 's' :: rest).length + 1 + 1) ('(' :: (name ++ ')' :: 's' :: rest))
      else Tok.ch '%' ::
        tokAux ((name ++ ')' :: 's' :: rest).length + 1 + 1) ('(' :: (name ++ ')' :: 's' :: rest))) =
      Tok.ph name.asString :: tokAux (rest.length + 1) rest
    rw [if_pos rfl, if_pos rfl]
    show (if ('s' : Char) = 's' then
        if name = [] then Tok.ch '%' ::
          tokAux ((name ++ ')' :: 's' :: rest).length + 1 + 1) ('(' :: (name ++ ')' :: 's' :: rest))
        else Tok.ph name.asString ::
          tokAux ((name ++ ')' :: 's' :: rest).length + 1 + 1) rest
      else Tok.ch '%' ::
        tokAux ((name ++ ')' :: 's' :: rest).length + 1 + 1) ('(' :: (name ++ ')' :: 's' :: rest))) =
      Tok.ph name.asString :: tokAux (rest.length + 1) rest
    rw [if_pos rfl, if_neg h2]
    refine congrArg _ ?_
    apply tokAux_irrel
    · simp only [List.length_append, List.length_cons]
      omega
    · omega

end Sdao

namespace Sdao

/-- Every literal-character token produced by the scanner is a character
of the scanned text. -/
theorem tok_ch_mem : ∀ (f : Nat) (cs : List Char) (c : Char),
    Tok.ch c ∈ tokAux f cs → c ∈ cs := by
  intro f
  induction f with
  | zero => intro cs c h; cases h
  | succ f ih =>
    intro cs c h
    match cs with
    | [] => cases h
    | [c1] =>
      rcases List.mem_cons.mp h with h1 | h2
      · injection h1 with hc; rw [hc]; exact List.mem_cons_self _ _
      · cases h2
    | c1 :: c2 :: rest2 =>
      have hsub : ∀ d : Char, d ∈ (c2 :: rest2 : List Char) → d ∈ (c1 :: c2 :: rest2 : List Char) :=
        fun d hd => List.mem_cons_of_mem c1 hd
      revert h
      simp only [tokAux]
      by_cases hc : c1 = '%'
      · rw [if_pos hc]
        by_cases hc2 : c2 = '('
        · rw [if_pos hc2]
          cases hsp : splitAtRparen rest2 with
          | none =>
            intro h
            rcases List.mem_cons.mp h with h1 | h2
            · injection h1 with hcc; rw [hcc, ← hc]; exact List.mem_cons_self _ _
            · exact hsub c (ih (c2 :: rest2) c h2)
          | some p =>
            obtain ⟨name, after⟩ := p
            cases after with
            | nil =>
              intro h
              rcases List.mem_cons.mp h with h1 | h2
              · injection h1 with hcc; rw [hcc, ← hc]; exact List.mem_cons_self _ _
              · exact hsub c (ih (c2 :: rest2) c h2)
            | cons a1 after2 =>
              show Tok.ch c ∈ (if a1 = 's' then
                  if name = [] then Tok.ch '%' :: tokAux f (c2 :: rest2)
                  else Tok.ph name.asString :: tokAux f after2
                else Tok.ch '%' :: tokAux f (c2 :: rest2)) → c ∈ c1 :: c2 :: rest2
              by_cases ha1 : a1 = 's'
              · rw [if_pos ha1]
                by_cases hname : name = []
                · rw [if_pos hname]
                  intro h
                  rcases List.mem_cons.mp h with h1 | h2
                  · injection h1 with hcc; rw [hcc, ← hc]; exact List.mem_cons_self _ _
                  · exact hsub c (ih (c2 :: rest2) c h2)
                · rw [if_neg hname]
                  intro h
                  rcases List.mem_cons.mp h with h1 | h2
                  · cases h1
                  · have hmem : c ∈ after2 := ih after2 c h2
                    have hsp2 := (splitAtRparen_spec rest2 name (a1 :: after2) hsp).1
                    have : c ∈ rest2 := by
                      rw [hsp2]
                      exact List.mem_append_right _ (List.mem_cons_of_mem _ (List.mem_cons_of_mem _ hmem))
                    exact hsub c (List.mem_cons_of_mem _ this)
              · rw [if_neg ha1]
                intro h
                rcases List.mem_cons.mp h with h1 | h2
                · injection h1 with hcc; rw [hcc, ← hc]; exact List.mem_cons_self _ _
                · exact hsub c (ih (c2 :: rest2) c h2)
        · rw [if_neg hc2]
          intro h
          rcases List.mem_cons.mp h with h1 | h2
          · injection h1 with hcc; rw [hcc]; exact List.mem_cons_self _ _
          · exact hsub c (ih (c2 :: rest2) c h2)
      · rw [if_neg hc]
        intro h
        rcases List.mem_cons.mp h with h1 | h2
        · injection h1 with hcc; rw [hcc]; exact List.mem_cons_self _ _
        · exact hsub c (ih (c2 :: rest2) c h2)

/-- If the scanner produced a placeholder token, the text contains the
substring `%(`. -/
theorem contains_of_ph : ∀ (f : Nat) (cs : List Char) (n : String),
    Tok.ph n ∈ tokAux f cs → containsPercentLparen cs = true := by
  intro f
  induction f with
  | zero => intro cs n h; cases h
  | succ f ih =>
    intro cs n h
    match cs with
    | [] => cases h
    | [c1] =>
      rcases List.mem_cons.mp h with h1 | h2
      · cases h1
      · cases h2
    | c1 :: c2 :: rest2 =>
      revert h
      simp only [tokAux, containsPercentLparen]
      by_cases hc : c1 = '%'
      · rw [if_pos hc, if_pos hc]
        by_cases hc2 : c2 = '('
        · rw [if_pos hc2, if_pos hc2]
          intro _
          rfl
        · rw [if_neg hc2, if_neg hc2]
          intro h
          rcases List.mem_cons.mp h with h1 | h2
          · cases h1
          · exact ih (c2 :: rest2) n h2
      · rw [if_neg hc, if_neg hc]
        intro h
        rcases List.mem_cons.mp h with h1 | h2
        · cases h1
        · exact ih (c2 :: rest2) n h2

/-- A template with at least one scanned placeholder name contains the
substring `%(`. -/
theorem contains_of_namesOf (cs : List Char) (h : namesOf cs ≠ []) :
    containsPercentLparen cs = true := by
  have hex : ∃ n, n ∈ namesOf cs := by
    cases hn : namesOf cs with
    | nil => exact absurd hn h
    | cons n ns => exact ⟨n, List.mem_cons_self _ _⟩
  obtain ⟨n, hn⟩ := hex
  obtain ⟨t, ht, hph⟩ := List.mem_filterMap.mp hn
  cases t with
  | ch c => cases hph
  | ph m => exact contains_of_ph _ cs m ht

/-- The workhorse for the marker-count and order-fidelity claims: when
every scanned placeholder name can be looked up and the template text
itself carries no `?`, binding succeeds, the rewritten text has exactly
one `?` per bound value, and the i-th bound value is the looked-up value
of the i-th scanned name. -/
theorem bindToks_ok (params : List (String × α)) : ∀ toks : List Tok,
    (∀ n : String, Tok.ph n ∈ toks → (List.lookup n params).isSome = true) →
    Tok.ch '?' ∉ toks →
    ∃ (cs : List Char) (vs : List α), bindToks params toks = Except.ok (cs, vs) ∧
      cs.count '?' = vs.length ∧
      vs.map some = (toks.filterMap phName).map (fun n => List.lookup n params) := by
  intro toks
  induction toks with
  | nil => intro _ _; exact ⟨[], [], rfl, rfl, rfl⟩
  | cons t ts ih =>
    intro hall hq
    obtain ⟨cs, vs, hok, hcount, hmap⟩ :=
      ih (fun n hn => hall n (List.mem_cons_of_mem t hn))
        (fun hm => hq (List.mem_cons_of_mem t hm))
    cases t with
    | ch c =>
      refine ⟨c :: cs, vs, ?_, ?_, ?_⟩
      · unfold bindToks
        rw [hok]
      · have hcne : ¬c = '?' := by
          intro hh
          exact hq (by rw [hh]; exact List.mem_cons_self _ _)
        rw [List.count_cons]
        simp [hcne, hcount]
      · simpa [phName] using hmap
    | ph n =>
      have hn := hall n (List.mem_cons_self _ _)
      obtain ⟨v, hv⟩ := Option.isSome_iff_exists.mp hn
      refine ⟨'?' :: cs, v :: vs, ?_, ?_, ?_⟩
      · unfold bindToks
        rw [hv, hok]
      · rw [List.count_cons]
        simp [hcount]
      · simp only [List.filterMap_cons, phName, List.map_cons]
        rw [hv]
        exact congrArg _ hmap

end Sdao

namespace Sdao

/-! ### Claim C1 -/

/-- Claim C1: for every template with at least one `%(name)s`
placeholder (and no literal `?` of its own) and every non-empty value
mapping containing every referenced name, translation succeeds; the
rewritten text carries exactly one `?` marker per returned value, and
the i-th value is the mapping's entry for the name of the i-th
placeholder in left-to-right order — so a name used twice yields two
markers, each bound to the same source value. -/
theorem sdao_C1_marker_count_order (sql : String) (params : List (String × Int))
    (h1 : params ≠ [])
    (h2 : namesOf sql.data ≠ [])
    (h3 : ∀ n ∈ namesOf sql.data, (List.lookup n params).isSome = true)
    (h4 : '?' ∉ sql.data) :
    ∃ (out : String) (vals : List Int),
      convertPyformatToQmark sql params = ConvertResult.converted out vals ∧
      out.data.count '?' = vals.length ∧
      vals.map some = (namesOf sql.data).map (fun n => List.lookup n params) := by
  have hcont : containsPercentLparen sql.data = true := contains_of_namesOf sql.data h2
  have hq : Tok.ch '?' ∉ tokenize sql.data := fun hm => h4 (tok_ch_mem _ sql.data '?' hm)
  have hall : ∀ n : String, Tok.ph n ∈ tokenize sql.data →
      (List.lookup n params).isSome = true :=
    fun n hn => h3 n (List.mem_filterMap.mpr ⟨Tok.ph n, hn, rfl⟩)
  obtain ⟨cs, vs, hok, hcount, hmap⟩ := bindToks_ok params (tokenize sql.data) hall hq
  refine ⟨String.mk cs, vs, ?_, hcount, hmap⟩
  obtain ⟨p, ps, rfl⟩ := List.exists_cons_of_ne_nil h1
  unfold convertPyformatToQmark
  rw [if_neg (fun h => Bool.noConfusion h), if_neg (by rw [hcont]; exact fun h => Bool.noConfusion h), hok]

/-- Claim C1 witness: the order-fidelity example with a repeated name —
two markers, both bound to the same source value 5. -/
theorem sdao_C1_witness :
    ∃ (out : String) (vals : List Int),
      convertPyformatToQmark "x = %(x)s OR y = %(x)s" [("x", (5 : Int))] =
        ConvertResult.converted out vals ∧
      out.data.count '?' = vals.length ∧
      vals.map some =
        (namesOf ("x = %(x)s OR y = %(x)s".data)).map
          (fun n => List.lookup n [("x", (5 : Int))]) :=
  sdao_C1_marker_count_order "x = %(x)s OR y = %(x)s" [("x", (5 : Int))]
    (by decide) (by decide) (by decide) (by decide)

end Sdao

namespace Sdao

/-! ### Decimal representation: `toString` on `Nat` is injective

`f"{paramAlias}_{i + next_index}"` in the source renders the index in
decimal; the alias-freshness argument needs that distinct indices render
to distinct strings. -/

theorem decVal_digitChar : ∀ n : Nat, n < 10 → (Nat.digitChar n).toNat - 48 = n := by decide

theorem toDigitsCore_decVal : ∀ (fuel n : Nat) (acc : List Char), n < 10 ^ fuel →
    decVal (Nat.toDigitsCore 10 fuel n acc) = n * 10 ^ acc.length + decVal acc := by
  intro fuel
  induction fuel with
  | zero =>
    intro n acc h
    have hn : n = 0 := by simpa using h
    subst hn
    simp [Nat.toDigitsCore]
  | succ fuel ih =>
    intro n acc h
    unfold Nat.toDigitsCore
    by_cases hdiv : n / 10 = 0
    · rw [if_pos hdiv]
      have hn : n < 10 := by omega
      have hd := decVal_digitChar (n % 10) (Nat.mod_lt _ (by norm_num))
      show ((Nat.digitChar (n % 10)).toNat - 48) * 10 ^ acc.length + decVal acc =
          n * 10 ^ acc.length + decVal acc
      rw [hd, Nat.mod_eq_of_lt hn]
    · rw [if_neg hdiv]
      have hlt : n / 10 < 10 ^ fuel := by
        rw [Nat.div_lt_iff_lt_mul (by norm_num)]
        calc n < 10 ^ (fuel + 1) := h
          _ = 10 ^ fuel * 10 := by rw [pow_succ]
      rw [ih (n / 10) (Nat.digitChar (n % 10) :: acc) hlt]
      show n / 10 * 10 ^ (acc.length + 1) +
          (((Nat.digitChar (n % 10)).toNat - 48) * 10 ^ acc.length + decVal acc) =
          n * 10 ^ acc.length + decVal acc
      have hd := decVal_digitChar (n % 10) (Nat.mod_lt _ (by norm_num))
      rw [hd]
      calc n / 10 * 10 ^ (acc.length + 1) + (n % 10 * 10 ^ acc.length + decVal acc)
          = (10 * (n / 10) + n % 10) * 10 ^ acc.length + decVal acc := by ring
        _ = n * 10 ^ acc.length + decVal acc := by rw [Nat.div_add_mod]

theorem toDigits_decVal (n : Nat) : decVal (Nat.toDigits 10 n) = n := by
  unfold Nat.toDigits
  have h1 : n < 10 ^ n := Nat.lt_pow_self (by norm_num) n
  have h2 : (10 : Nat) ^ n ≤ 10 ^ (n + 1) :=
    Nat.pow_le_pow_right (by norm_num) (Nat.le_succ n)
  have := toDigitsCore_decVal (n + 1) n [] (lt_of_lt_of_le h1 h2)
  simpa [decVal] using this

theorem natToString_inj (m n : Nat) (h : toString m = toString n) : m = n := by
  have hlist : Nat.toDigits 10 m = Nat.toDigits 10 n := congrArg String.data h
  have hm := toDigits_decVal m
  have hn := toDigits_decVal n
  rw [hlist] at hm
  exact hm.symm.trans hn

end Sdao

namespace Sdao

/-! ### Alias freshness lemmas -/

theorem strAppend_left_cancel {a b c : String} (h : a ++ b = a ++ c) : b = c := by
  have hd := congrArg String.data h
  simp only [String.data_append] at hd
  exact strEq_of_data (List.append_cancel_left hd)

theorem mem_aliasRange (base : String) (m k : Nat) :
    ((base ++ "_" ++ toString k) ∈ (List.range m).map fun i => base ++ "_" ++ toString i) ↔
      k < m := by
  constructor
  · intro h
    obtain ⟨i, hi, he⟩ := List.mem_map.mp h
    have hts : toString i = toString k := strAppend_left_cancel he
    rw [← natToString_inj i k hts]
    exact List.mem_range.mp hi
  · intro h
    exact List.mem_map.mpr ⟨k, List.mem_range.mpr h, rfl⟩

theorem findNextIndexAux_range (base : String) (m : Nat) :
    ∀ (fuel k : Nat), k ≤ m → m - k < fuel →
    SqlBuilder.findNextIndexAux base
      ((List.range m).map fun i => base ++ "_" ++ toString i) fuel k = m := by
  intro fuel
  induction fuel with
  | zero => intro k _ hf; exact absurd hf (Nat.not_lt_zero _)
  | succ fuel ih =>
    intro k hk hf
    unfold SqlBuilder.findNextIndexAux
    by_cases hkm : k = m
    · subst hkm
      rw [if_neg (fun hmem => absurd ((mem_aliasRange base k k).mp hmem) (lt_irrefl k))]
    · have hklt : k < m := Nat.lt_of_le_of_ne hk hkm
      rw [if_pos ((mem_aliasRange base m k).mpr hklt)]
      exact ih (k + 1) hklt (by omega)

theorem findNextIndex_range (base : String) (m : Nat) :
    SqlBuilder.findNextIndex base ((List.range m).map fun i => base ++ "_" ++ toString i) = m := by
  unfold SqlBuilder.findNextIndex
  apply findNextIndexAux_range
  · exact Nat.zero_le m
  · simp

theorem findNextIndex_nil (base : String) : SqlBuilder.findNextIndex base [] = 0 := rfl

/-- The list branch of the `whereCondition` loop body, for a non-empty
list value under a comparison operator other than `NOT IN`. -/
theorem condStep_list (used : List String) (result : String) (n : String) (lop : Option String)
    (vs : List Int) (hvs : vs ≠ []) :
    SqlBuilder.condStep used result (⟨n, lop, "=", CondValue.list vs⟩ : Condition Int) =
      (used ++ (List.range vs.length).map
        (fun i =>
          "param_" ++ n ++ "_" ++ toString (i + SqlBuilder.findNextIndex ("param_" ++ n) used)),
       (match lop with
        | none => result
        | some op => result ++ " " ++ op) ++ " " ++ ("\"" ++ n ++ "\"") ++ " " ++ "IN" ++
         ("(" ++ String.intercalate ","
            (((List.range vs.length).map
              (fun i =>
                "param_" ++ n ++ "_" ++
                  toString (i + SqlBuilder.findNextIndex ("param_" ++ n) used))).map
              (fun nm => "%(" ++ nm ++ ")s")) ++ ")")) := by
  have hlen : ¬(vs.length < 1) := by
    cases vs with
    | nil => exact absurd rfl hvs
    | cons a l => simp
  unfold SqlBuilder.condStep
  dsimp only
  rw [if_neg hlen]
  rfl

end Sdao

namespace Sdao

/-! ### Claim C7 -/

/-- Claim C7: an IN-list condition expands to a parenthesized
comma-joined group of named placeholders `param_<name>_<k>`, one per
element in list order; the concrete example on `id` with `[1,2,3]`
builds `WHERE "id" IN(%(param_id_0)s,%(param_id_1)s,%(param_id_2)s)`
(whitespace-flexible per the claim), and for two IN-conditions on the
same name in one clause the second group's numbering continues at the
length of the first instead of restarting at 0, so the alias sets are
disjoint. -/
theorem sdao_C7_in_expansion (n : String) (vs1 vs2 : List Int)
    (h1 : vs1 ≠ []) (h2 : vs2 ≠ []) :
    SqlBuilder.whereCondition [⟨"id", none, "=", CondValue.list [(1 : Int), 2, 3]⟩] =
      "WHERE \"id\" IN(%(param_id_0)s,%(param_id_1)s,%(param_id_2)s)" ∧
    SqlBuilder.whereCondition
        [⟨n, none, "=", CondValue.list vs1⟩, ⟨n, some "AND", "=", CondValue.list vs2⟩] =
      "WHERE" ++ " " ++ ("\"" ++ n ++ "\"") ++ " " ++ "IN" ++ inGroup n 0 vs1.length ++
        " " ++ "AND" ++ " " ++ ("\"" ++ n ++ "\"") ++ " " ++ "IN" ++
        inGroup n vs1.length vs2.length := by
  constructor
  · rfl
  · unfold SqlBuilder.whereCondition
    simp only [List.foldl_cons, List.foldl_nil]
    rw [condStep_list [] "WHERE" n none vs1 h1]
    dsimp only
    rw [findNextIndex_nil]
    simp only [List.nil_append, Nat.add_zero]
    rw [condStep_list _ _ n (some "AND") vs2 h2]
    dsimp only
    rw [findNextIndex_range ("param_" ++ n) vs1.length]
    unfold inGroup
    simp only [List.map_map, Nat.add_zero]
    rfl

/-- Claim C7 witness: two IN-conditions on `id`, the second numbered
from 3. -/
theorem sdao_C7_witness :
    SqlBuilder.whereCondition
        [⟨"id", none, "=", CondValue.list [(1 : Int), 2, 3]⟩,
         ⟨"id", some "AND", "=", CondValue.list [(4 : Int), 5]⟩] =
      "WHERE \"id\" IN(%(param_id_0)s,%(param_id_1)s,%(param_id_2)s) AND \"id\" IN(%(param_id_3)s,%(param_id_4)s)" :=
  ((sdao_C7_in_expansion "id" [(1 : Int), 2, 3] [(4 : Int), 5]
    (by decide) (by decide)).2).trans (by rfl)

end Sdao

namespace Sdao

/-! ### Claim C9 -/

theorem asString_data (s : String) : s.data.asString = s := rfl

theorem tok_append_lit : ∀ (s t : List Char), '%' ∉ s →
    tokenize (s ++ t) = s.map Tok.ch ++ tokenize t := by
  intro s
  induction s with
  | nil => intro t _; simp
  | cons c cs ih =>
    intro t h
    have hc : ¬c = '%' := fun hh => h (by rw [hh]; exact List.mem_cons_self _ _)
    rw [List.cons_append, tokenize_cons_ch c (cs ++ t) hc,
      ih t (fun hm => h (List.mem_cons_of_mem c hm))]
    rfl

theorem filterMap_phName_chs (L : List Char) :
    List.filterMap phName (L.map Tok.ch) = [] := by
  induction L with
  | nil => rfl
  | cons c cs ih => simp [List.filterMap_cons, phName, ih]

theorem filterMap_phName_comp (L : List Char) :
    List.filterMap (phName ∘ Tok.ch) L = [] := by
  induction L with
  | nil => rfl
  | cons c cs ih => simp [List.filterMap_cons, phName, Function.comp, ih]

theorem bindToks_ok_of_lookup (params : List (String × Int)) : ∀ toks : List Tok,
    (∀ n : String, Tok.ph n ∈ toks → (List.lookup n params).isSome = true) →
    ∃ (cs : List Char) (vs : List Int), bindToks params toks = Except.ok (cs, vs) := by
  intro toks
  induction toks with
  | nil => intro _; exact ⟨[], [], rfl⟩
  | cons t ts ih =>
    intro hall
    obtain ⟨cs, vs, hok⟩ := ih (fun n hn => hall n (List.mem_cons_of_mem t hn))
    cases t with
    | ch c =>
      refine ⟨c :: cs, vs, ?_⟩
      unfold bindToks
      rw [hok]
    | ph n =>
      obtain ⟨v, hv⟩ := Option.isSome_iff_exists.mp (hall n (List.mem_cons_self _ _))
      refine ⟨'?' :: cs, v :: vs, ?_⟩
      unfold bindToks
      rw [hv, hok]

theorem condStep_scalar (used : List String) (result : String) (c : Condition Int)
    (h : c.value.isScalar = true) :
    SqlBuilder.condStep used result c = (used, result ++ scalarFragment c) := by
  obtain ⟨n, lop, co, v⟩ := c
  cases v with
  | scalar a =>
    unfold SqlBuilder.condStep scalarFragment
    dsimp only
    cases lop with
    | none =>
      refine congrArg (Prod.mk used) ?_
      simp [String.append_assoc]
    | some op =>
      refine congrArg (Prod.mk used) ?_
      simp [String.append_assoc]
  | null => simp [CondValue.isScalar] at h
  | list xs => simp [CondValue.isScalar] at h

theorem whereFold_scalar : ∀ (conds : List (Condition Int)) (used : List String) (result : String),
    (∀ c ∈ conds, c.value.isScalar = true) →
    conds.foldl (fun acc c => SqlBuilder.condStep acc.1 acc.2 c) (used, result) =
      (used, result ++ fragsOf conds) := by
  intro conds
  induction conds with
  | nil => intro used result _; simp [fragsOf]
  | cons c cs ih =>
    intro used result hall
    rw [List.foldl_cons]
    dsimp only
    rw [condStep_scalar used result c (hall c (List.mem_cons_self _ _)),
      ih _ _ (fun d hd => hall d (List.mem_cons_of_mem c hd))]
    refine congrArg (Prod.mk used) ?_
    rw [String.append_assoc]
    rfl

end Sdao

namespace Sdao

theorem names_scalarFragment (c : Condition Int) (R : List Char)
    (hgood : goodScalarCond c = true) :
    List.filterMap phName (tokenize ((scalarFragment c).data ++ R)) =
      ("param_" ++ c.paramName) :: List.filterMap phName (tokenize R) := by
  obtain ⟨n, lop, co, v⟩ := c
  simp only [goodScalarCond, Bool.and_eq_true, Bool.not_eq_true'] at hgood
  obtain ⟨⟨⟨⟨hscal, hn1⟩, hn2⟩, hco⟩, hlop⟩ := hgood
  have hn1m : '%' ∉ n.data := by
    intro hm
    rw [List.elem_eq_true_of_mem hm] at hn1
    cases hn1
  have hn2m : ')' ∉ n.data := by
    intro hm
    rw [List.elem_eq_true_of_mem hm] at hn2
    cases hn2
  have hcom : '%' ∉ co.data := by
    intro hm
    rw [List.elem_eq_true_of_mem hm] at hco
    cases hco
  have d1 : (" " : String).data = [' '] := rfl
  have d2 : ("\"" : String).data = ['"'] := rfl
  have d3 : (" %(" : String).data = [' ', '%', '('] := rfl
  have d4 : (")s" : String).data = [')', 's'] := rfl
  have d5 : ("param_" : String).data = ['p', 'a', 'r', 'a', 'm', '_'] := rfl
  have d0 : ("" : String).data = [] := rfl
  have halias_ne : ("param_" ++ n).data ≠ [] := by
    rw [String.data_append, d5]
    simp
  have halias_rp : ')' ∉ ("param_" ++ n).data := by
    rw [String.data_append, d5]
    intro hm
    rcases List.mem_append.mp hm with h1 | h2
    · simp at h1
    · exact hn2m h2
  cases lop with
  | none =>
    have hsplit : (scalarFragment (⟨n, none, co, v⟩ : Condition Int)).data ++ R =
        (' ' :: '"' :: (n.data ++ '"' :: ' ' :: (co.data ++ [' ']))) ++
          ('%' :: '(' :: (("param_" ++ n).data ++ ')' :: 's' :: R)) := by
      simp [scalarFragment, String.data_append, d0, d1, d2, d3, d4, d5,
        List.append_assoc]
    have hLfree : '%' ∉ (' ' :: '"' :: (n.data ++ '"' :: ' ' :: (co.data ++ [' '])) : List Char) := by
      intro hm
      simp at hm
      rcases hm with h | h
      · exact hn1m h
      · exact hcom h
    rw [hsplit, tok_append_lit _ _ hLfree,
      tokenize_ph (("param_" ++ n).data) R halias_rp halias_ne, asString_data]
    simp [List.filterMap_append, filterMap_phName_chs, filterMap_phName_comp,
      List.filterMap_cons, phName]
  | some op =>
    have hlopb : (!List.elem '%' op.data) = true := hlop
    have hlopm : '%' ∉ op.data := by
      intro hm
      rw [List.elem_eq_true_of_mem hm] at hlopb
      cases hlopb
    have hsplit : (scalarFragment (⟨n, some op, co, v⟩ : Condition Int)).data ++ R =
        (' ' :: (op.data ++ ' ' :: '"' :: (n.data ++ '"' :: ' ' :: (co.data ++ [' '])))) ++
          ('%' :: '(' :: (("param_" ++ n).data ++ ')' :: 's' :: R)) := by
      simp [scalarFragment, String.data_append, d0, d1, d2, d3, d4, d5,
        List.append_assoc]
    have hLfree : '%' ∉ (' ' :: (op.data ++ ' ' :: '"' ::
        (n.data ++ '"' :: ' ' :: (co.data ++ [' ']))) : List Char) := by
      intro hm
      simp at hm
      rcases hm with h | h | h
      · exact hlopm h
      · exact hn1m h
      · exact hcom h
    rw [hsplit, tok_append_lit _ _ hLfree,
      tokenize_ph (("param_" ++ n).data) R halias_rp halias_ne, asString_data]
    simp [List.filterMap_append, filterMap_phName_chs, filterMap_phName_comp,
      List.filterMap_cons, phName]

theorem names_fragsOf : ∀ (conds : List (Condition Int)) (t : List Char),
    (∀ c ∈ conds, goodScalarCond c = true) →
    List.filterMap phName (tokenize ((fragsOf conds).data ++ t)) =
      conds.map (fun c => "param_" ++ c.paramName) ++
        List.filterMap phName (tokenize t) := by
  intro conds
  induction conds with
  | nil =>
    intro t _
    simp [fragsOf]
  | cons c cs ih =>
    intro t hall
    have hd : (fragsOf (c :: cs)).data ++ t =
        (scalarFragment c).data ++ ((fragsOf cs).data ++ t) := by
      simp [fragsOf, String.data_append, List.append_assoc]
    rw [hd, names_scalarFragment c _ (hall c (List.mem_cons_self _ _)),
      ih t (fun d hd2 => hall d (List.mem_cons_of_mem c hd2))]
    rfl

end Sdao

namespace Sdao

/-- Claim C9 counterexample: for the scalar condition on `id`,
`whereCondition` emits the placeholder `%(param_id)s` — named
`param_id`, not the raw `id` — so translating the built template with a
value source keyed by the raw paramName `id` does not succeed: it
raises the missing-parameter error for `param_id`. -/
theorem sdao_C9_counterexample :
    SqlBuilder.whereCondition [⟨"id", none, "=", CondValue.scalar (5 : Int)⟩] =
      "WHERE \"id\" = %(param_id)s" ∧
    convertPyformatToQmark "WHERE \"id\" = %(param_id)s" [("id", (5 : Int))] =
      ConvertResult.missingParam "param_id" "WHERE \"id\" = %(param_id)s" :=
  ⟨rfl, rfl⟩

/-- Claim C9 amended: for every non-empty condition list of scalar
non-null conditions (whose names and operators do not themselves embed
placeholder syntax), the placeholder emitted for each condition is
named `param_<paramName>`, so a value source keyed by `param_<paramName>`
of each condition makes the subsequent translation of the built WHERE
template succeed. -/
theorem sdao_C9_amended (conds : List (Condition Int)) (hne : conds ≠ [])
    (hgood : ∀ c ∈ conds, goodScalarCond c = true) :
    ∃ (text : String) (vals : List Int),
      convertPyformatToQmark (SqlBuilder.whereCondition conds)
        (conds.map fun c => ("param_" ++ c.paramName, c.value.scalarOr 0)) =
        ConvertResult.converted text vals := by
  have hscal : ∀ c ∈ conds, c.value.isScalar = true := by
    intro c hc
    have h := hgood c hc
    simp only [goodScalarCond, Bool.and_eq_true] at h
    exact h.1.1.1.1
  have hclause : SqlBuilder.whereCondition conds = "WHERE" ++ fragsOf conds := by
    unfold SqlBuilder.whereCondition
    rw [whereFold_scalar conds [] "WHERE" hscal]
  have hWfree : '%' ∉ ("WHERE" : String).data := by decide
  have hnames : namesOf (SqlBuilder.whereCondition conds).data =
      conds.map (fun c => "param_" ++ c.paramName) := by
    rw [hclause]
    show List.filterMap phName (tokenize ("WHERE" ++ fragsOf conds).data) = _
    have hWdata : ("WHERE" ++ fragsOf conds).data =
        "WHERE".data ++ ((fragsOf conds).data ++ []) := by
      simp [String.data_append]
    rw [hWdata, tok_append_lit _ _ hWfree, List.filterMap_append, filterMap_phName_chs,
      names_fragsOf conds [] hgood]
    simp [tokenize, tokAux]
  have hkeys : ((conds.map fun c => ("param_" ++ c.paramName, c.value.scalarOr 0)).map
      Prod.fst) = conds.map (fun c => "param_" ++ c.paramName) := by
    simp [List.map_map, Function.comp]
  have hlook : ∀ nm ∈ namesOf (SqlBuilder.whereCondition conds).data,
      (List.lookup nm
        (conds.map fun c => ("param_" ++ c.paramName, c.value.scalarOr 0))).isSome = true := by
    intro nm hm
    apply lookup_isSome_of_mem_keys
    rw [hkeys]
    rw [hnames] at hm
    exact hm
  have hall : ∀ nm : String, Tok.ph nm ∈ tokenize (SqlBuilder.whereCondition conds).data →
      (List.lookup nm
        (conds.map fun c => ("param_" ++ c.paramName, c.value.scalarOr 0))).isSome = true :=
    fun nm hm => hlook nm (List.mem_filterMap.mpr ⟨Tok.ph nm, hm, rfl⟩)
  obtain ⟨cs, vs, hok⟩ := bindToks_ok_of_lookup _ _ hall
  refine ⟨String.mk cs, vs, ?_⟩
  obtain ⟨c0, cs0, rfl⟩ := List.exists_cons_of_ne_nil hne
  have hnne : namesOf (SqlBuilder.whereCondition (c0 :: cs0)).data ≠ [] := by
    rw [hnames]
    simp
  have hcont := contains_of_namesOf _ hnne
  unfold convertPyformatToQmark
  rw [if_neg (fun h => Bool.noConfusion h),
    if_neg (by rw [hcont]; exact fun h => Bool.noConfusion h), hok]

/-- Claim C9 witness: two scalar conditions, value source keyed by
`param_id` and `param_n`. -/
theorem sdao_C9_witness :
    ∃ (text : String) (vals : List Int),
      convertPyformatToQmark
        (SqlBuilder.whereCondition
          [⟨"id", none, "=", CondValue.scalar (5 : Int)⟩,
           ⟨"n", some "AND", "!=", CondValue.scalar (7 : Int)⟩])
        (([⟨"id", none, "=", CondValue.scalar (5 : Int)⟩,
           ⟨"n", some "AND", "!=", CondValue.scalar (7 : Int)⟩] : List (Condition Int)).map
          fun c => ("param_" ++ c.paramName, c.value.scalarOr 0)) =
        ConvertResult.converted text vals :=
  sdao_C9_amended
    [⟨"id", none, "=", CondValue.scalar (5 : Int)⟩,
     ⟨"n", some "AND", "!=", CondValue.scalar (7 : Int)⟩]
    (by decide) (by decide)

end Sdao
